import Mathlib

/-!
Verification of the kopia snapshot/cache subsystems visible in this
repository: the block cache (`src/block/block_cache_test.go` exercises it),
the snapshot-expire driver (`src/cli/command_snapshot_expire.go`) and the
snapshot listing command (`src/unnamed/part_000`).

The block cache implementation and the retention engine are not part of the
visible sources (only their tests and callers are), so they are modelled from
the specification, pinned where the in-repository tests fix observable
behaviour.  The CLI drivers are translated directly from the Go sources.
-/

instance {ε α : Type _} [DecidableEq ε] [DecidableEq α] : DecidableEq (Except ε α) := fun x y =>
  match x, y with
  | .ok a, .ok b =>
    if h : a = b then .isTrue (by rw [h]) else .isFalse (fun he => by cases he; exact h rfl)
  | .error a, .error b =>
    if h : a = b then .isTrue (by rw [h]) else .isFalse (fun he => by cases he; exact h rfl)
  | .ok _, .error _ => .isFalse (fun he => by cases he)
  | .error _, .ok _ => .isFalse (fun he => by cases he)

namespace Kopia

/-! ## Block cache model -/

/-- Errors the cache's primary operation can surface. -/
inductive CacheError where
  | notFound
  | invalidOffset
deriving DecidableEq, Repr

/-- Modelled from the spec: range extraction over a payload, shared by the
underlying storage's `get(id, offset, length)` and the cache's slicing of a
materialized payload.  `length == -1` means the suffix starting at `offset`;
`offset < 0`, `length >= 0 && offset+length > len`, or `offset > len` are
invalid ranges. -/
def extractRange (p : List Nat) (o l : Int) : Option (List Nat) :=
  if o < 0 then none
  else if 0 ≤ l then
    if o + l ≤ (p.length : Int) then some ((p.drop o.toNat).take l.toNat) else none
  else if l = -1 then
    if o ≤ (p.length : Int) then some (p.drop o.toNat) else none
  else none

/-- Modelled from the spec: the cache's rewriting of a caller-supplied
`cache_key` into the on-storage identifier (the spec's "rewritten key"; the
block cache implementation is absent from the visible sources).  The spec
text describes appending a trailing marker character, but the repository's
own test `verifyBlockCache` pins the rewriting precisely: after requests with
cache keys `xf0f0f1`, `xf0f0f2` and `f0f0f5` the cache storage must list
exactly `f0f0f1x`, `f0f0f2x` and `f0f0f5`.  Hence a key of odd length has its
first character moved to the end, and a key of even length is stored
unchanged. -/
def adjustCacheKey (k : String) : String :=
  if k.data.length % 2 = 1 then String.mk (k.data.drop 1 ++ k.data.take 1) else k

/-- The rewritten-key rule exactly as the spec's words describe it (caller
key with the trailing marker `x` appended); kept separate so it can be
compared with `adjustCacheKey`, the rule the repository's test pins. -/
def specRewrittenKey (k : String) : String := k ++ "x"

/-- One object persisted in cache storage: rewritten key, full payload and
the storage-reported modification time. -/
structure CacheEntry where
  key : String
  payload : List Nat
  modTime : Nat
deriving DecidableEq, Repr

/-- State of the two storage tiers the cache touches: the underlying
content-addressed storage (a map from physical block id to bytes) and the
cache storage, plus the current clock used to timestamp writes. -/
structure CacheState where
  underlying : List (String × List Nat)
  cache : List CacheEntry
  now : Nat
deriving DecidableEq, Repr

/-- Lookup of a physical block in the underlying storage's key/value map. -/
def lookupBlock : List (String × List Nat) → String → Option (List Nat)
  | [], _ => none
  | (k, v) :: rest, b => if k = b then some v else lookupBlock rest b

/-- Lookup of a cache-storage object by its (rewritten) key. -/
def cacheLookup : List CacheEntry → String → Option CacheEntry
  | [], _ => none
  | e :: rest, k => if e.key = k then some e else cacheLookup rest k

/-- Map-semantics write to cache storage: replaces any object with the same
key. -/
def cachePut (l : List CacheEntry) (e : CacheEntry) : List CacheEntry :=
  e :: l.filter (fun x => x.key ≠ e.key)

/-- Modelled from the spec: `underlying.get(id, offset, length)`, the range
read of the underlying storage (§6; the map-backed test storage is not among
the visible sources). -/
def underlyingGet (s : CacheState) (b : String) (o l : Int) : Option (List Nat) :=
  (lookupBlock s.underlying b).bind (fun p => extractRange p o l)

/-- Modelled from the spec: the cache's primary operation
`get_range(cache_key, physical_block_id, offset, length)` (§4.1; the block
cache implementation is absent from the visible sources).  In spec order:
argument check (`offset < 0` fails before any storage is touched), lookup
under the rewritten key (a hit slices the cached payload), miss path (fetch
the full block; `NotFound` is surfaced without populating the cache; an
out-of-bounds range detected after materialization is surfaced without
populating the cache, which is what the test's expected storage listing
requires; otherwise the full payload is persisted and the range returned). -/
def getContentBlock (s : CacheState) (cacheKey blockID : String) (offset length : Int) :
    Except CacheError (List Nat) × CacheState :=
  if offset < 0 then (.error .invalidOffset, s)
  else
    match cacheLookup s.cache (adjustCacheKey cacheKey) with
    | some e =>
      match extractRange e.payload offset length with
      | some v => (.ok v, s)
      | none => (.error .invalidOffset, s)
    | none =>
      match lookupBlock s.underlying blockID with
      | none => (.error .notFound, s)
      | some p =>
        match extractRange p offset length with
        | none => (.error .invalidOffset, s)
        | some v =>
          (.ok v, { s with cache := cachePut s.cache ⟨adjustCacheKey cacheKey, p, s.now⟩ })

/-- Removal of a physical block from the underlying storage
(`DeleteBlock` in the tests). -/
def deleteUnderlying (s : CacheState) (b : String) : CacheState :=
  { s with underlying := s.underlying.filter (fun p => p.1 ≠ b) }

/-! ## Sweeper model -/

/-- Sweep limits: `maxCacheSizeBytes` is `CachingOptions.MaxCacheSizeBytes`,
`minSweepAge` the minimal age below which an entry is never evicted. -/
structure SweepConfig where
  maxCacheSizeBytes : Nat
  minSweepAge : Nat
deriving DecidableEq, Repr

/-- Size of a cache entry as reported by the storage listing. -/
def entrySize (e : CacheEntry) : Nat := e.payload.length

/-- Total size of the listed cache objects. -/
def totalSize (l : List CacheEntry) : Nat := (l.map entrySize).sum

/-- Sweep ordering: ascending modification time (oldest first). -/
def sweepOrder (a b : CacheEntry) : Prop := a.modTime ≤ b.modTime

instance : DecidableRel sweepOrder := fun a b => Nat.decLe a.modTime b.modTime

instance : IsTotal CacheEntry sweepOrder := ⟨fun a b => Nat.le_total a.modTime b.modTime⟩

instance : IsTrans CacheEntry sweepOrder := ⟨fun _ _ _ => Nat.le_trans⟩

/-- Modelled from the spec: the eviction loop of a sweep pass (§4.1,
Sweeper; the sweeper implementation is absent from the visible sources).
Entries arrive sorted by modification time ascending together with their
total size; while the total exceeds the ceiling and the oldest entry's age is
at least `minSweepAge`, the oldest entry is deleted and its size
subtracted. -/
def sweepLoop (cfg : SweepConfig) (now : Nat) : List CacheEntry → Nat → List CacheEntry
  | [], _ => []
  | e :: rest, total =>
    if cfg.maxCacheSizeBytes < total ∧ cfg.minSweepAge ≤ now - e.modTime then
      sweepLoop cfg now rest (total - entrySize e)
    else e :: rest

/-- Modelled from the spec: one sweep pass (§4.1, Sweeper): enumerate the
cache storage, sort by modification time ascending, and run the eviction
loop starting from the total size. -/
def sweepPass (cfg : SweepConfig) (s : CacheState) : CacheState :=
  ⟨s.underlying,
    sweepLoop cfg s.now (List.insertionSort sweepOrder s.cache)
      (totalSize (List.insertionSort sweepOrder s.cache)),
    s.now⟩

/-! ## Shared snapshot model -/

/-- Calendar instant of a snapshot start time (the policy's timezone is
already applied; fields are the local calendar components). -/
structure TimeVal where
  year : Nat
  month : Nat
  day : Nat
  hour : Nat
  minute : Nat
deriving DecidableEq, Repr

/-- `(host, user, path)` triple identifying a snapshot source. -/
structure SourceInfo where
  host : String
  userName : String
  path : String
deriving DecidableEq, Repr

/-- Stats relevant to the visible commands. -/
structure SnapshotStats where
  totalFileSize : Int
deriving DecidableEq, Repr

/-- Snapshot manifest fields consumed by the retention engine and the CLI
drivers; `retentionReasons` is the computed in-memory annotation. -/
structure Manifest where
  id : String
  source : SourceInfo
  startTime : TimeVal
  incompleteReason : String
  stats : SnapshotStats
  retentionReasons : List String
deriving DecidableEq, Repr

/-- Lexicographic key of a calendar instant: year, month, day, hour,
minute. -/
def timeKey (t : TimeVal) : Lex (Nat × Lex (Nat × Lex (Nat × Lex (Nat × Nat)))) :=
  toLex (t.year, toLex (t.month, toLex (t.day, toLex (t.hour, t.minute))))

/-- Sorting relation of the retention engine: start time descending (newest
first), ties broken by id ascending. -/
def retentionOrder (a b : Manifest) : Prop :=
  timeKey b.startTime < timeKey a.startTime ∨
    (timeKey a.startTime = timeKey b.startTime ∧ a.id ≤ b.id)

instance : DecidableRel retentionOrder := fun a b => by
  unfold retentionOrder; infer_instance

/-- Retention policy bucket counts; an unset bucket contributes nothing. -/
structure RetentionPolicy where
  keepLatest : Option Nat
  keepHourly : Option Nat
  keepDaily : Option Nat
  keepWeekly : Option Nat
  keepMonthly : Option Nat
  keepAnnual : Option Nat
deriving DecidableEq, Repr

/-! ### Calendar bucket keys (proleptic Gregorian, ISO weeks) -/

/-- Gregorian leap year predicate. -/
def isLeap (y : Nat) : Bool := (y % 4 == 0 && y % 100 != 0) || y % 400 == 0

/-- Length of month `m` of year `y`. -/
def daysInMonth (y m : Nat) : Nat :=
  if m = 2 then (if isLeap y then 29 else 28)
  else if m = 4 ∨ m = 6 ∨ m = 9 ∨ m = 11 then 30
  else 31

/-- Days in the months of year `y` strictly before month `m`. -/
def daysBeforeMonth (y : Nat) : Nat → Nat
  | m + 2 => daysBeforeMonth y (m + 1) + daysInMonth y (m + 1)
  | _ => 0

/-- Days in the proleptic Gregorian calendar strictly before January 1 of
year `y` (counting from year 1). -/
def daysBeforeYear (y : Nat) : Nat :=
  (y - 1) * 365 + (y - 1) / 4 - (y - 1) / 100 + (y - 1) / 400

/-- ISO day of week of a calendar date, Monday = 1 … Sunday = 7 (January 1
of year 1 is a Monday in the proleptic Gregorian calendar). -/
def isoDayOfWeek (y m d : Nat) : Nat :=
  let r := (daysBeforeYear y + daysBeforeMonth y m + d) % 7
  if r = 0 then 7 else r

/-- Whether ISO year `y` has 53 weeks. -/
def longIsoYear (y : Nat) : Bool :=
  isoDayOfWeek y 1 1 == 4 || (isLeap y && isoDayOfWeek y 1 1 == 3)

/-- ISO week-numbering year and week number of a calendar date. -/
def isoWeekPair (y m d : Nat) : Nat × Nat :=
  let doy := daysBeforeMonth y m + d
  let dow := isoDayOfWeek y m d
  let w := (doy + 10 - dow) / 7
  if w = 0 then (y - 1, if longIsoYear (y - 1) then 53 else 52)
  else if w = 53 && !longIsoYear y then (y + 1, 1)
  else (y, w)

/-- Two-digit zero padding of calendar components. -/
def pad2 (n : Nat) : String := if n < 10 then "0" ++ toString n else toString n

/-- Bucket key `YYYY`. -/
def annualKey (t : TimeVal) : String := toString t.year

/-- Bucket key `YYYY-MM`. -/
def monthlyKey (t : TimeVal) : String := toString t.year ++ "-" ++ pad2 t.month

/-- Bucket key ISO `YYYY-Www`. -/
def weeklyKey (t : TimeVal) : String :=
  let p := isoWeekPair t.year t.month t.day
  toString p.1 ++ "-W" ++ pad2 p.2

/-- Bucket key `YYYY-MM-DD`. -/
def dailyKey (t : TimeVal) : String := monthlyKey t ++ "-" ++ pad2 t.day

/-- Bucket key `YYYY-MM-DD-HH`. -/
def hourlyKey (t : TimeVal) : String := dailyKey t ++ "-" ++ pad2 t.hour

/-! ### Retention engine -/

/-- Modelled from the spec: one step of a time-unit bucket walk (§4.2; the
retention engine `RetentionPolicy.ComputeRetentionReasons` is absent from
the visible sources).  Given the bucket's configured count, the current
manifest's bucket key and the distinct keys already seen (newest first walk),
it yields the reasons contributed by this bucket together with the updated
seen-keys: at most one manifest per key (the first seen) and at most `n`
distinct keys acquire the reason `unit-i` with `i` the 1-based bucket
rank. -/
def bucketStep (o : Option Nat) (unit : String) (key : String) (seen : List String) :
    List String × List String :=
  match o with
  | none => ([], seen)
  | some n =>
    if key ∈ seen then ([], seen)
    else if seen.length < n then ([unit ++ "-" ++ toString (seen.length + 1)], key :: seen)
    else ([], key :: seen)

/-- Modelled from the spec: the walk of the sorted (newest first) manifest
list assigning retention reasons (§4.2).  `idx` is the 0-based position used
by the `latest` bucket; the five lists carry the distinct bucket keys already
seen for the annual, monthly, weekly, daily and hourly buckets.  Reasons
accumulate in the canonical order latest, annual, monthly, weekly, daily,
hourly. -/
def annotateAux (pol : RetentionPolicy) (idx : Nat)
    (sA sMo sW sD sH : List String) : List Manifest → List Manifest
  | [] => []
  | m :: rest =>
    let latest : List String :=
      match pol.keepLatest with
      | some n => if idx < n then ["latest-" ++ toString (idx + 1)] else []
      | none => []
    let a := bucketStep pol.keepAnnual "annual" (annualKey m.startTime) sA
    let mo := bucketStep pol.keepMonthly "monthly" (monthlyKey m.startTime) sMo
    let w := bucketStep pol.keepWeekly "weekly" (weeklyKey m.startTime) sW
    let d := bucketStep pol.keepDaily "daily" (dailyKey m.startTime) sD
    let h := bucketStep pol.keepHourly "hourly" (hourlyKey m.startTime) sH
    { m with retentionReasons := latest ++ a.1 ++ mo.1 ++ w.1 ++ d.1 ++ h.1 } ::
      annotateAux pol (idx + 1) a.2 mo.2 w.2 d.2 h.2 rest

/-- Modelled from the spec: `compute_retention_reasons(M, policy)` (§4.2):
sort newest first (ties by id ascending) and annotate every manifest with its
retention reasons; a manifest's previous reasons are discarded. -/
def computeRetentionReasons (pol : RetentionPolicy) (ms : List Manifest) : List Manifest :=
  annotateAux pol 0 [] [] [] [] [] (List.insertionSort retentionOrder ms)

/-! ## Snapshot expire command (`src/cli/command_snapshot_expire.go`) -/

/-- Modelled from the spec: `snapshot.GroupBySource` (its implementation is
absent from the visible sources): the distinct sources in order of first
appearance. -/
def uniqueSources (ms : List Manifest) : List SourceInfo :=
  ms.foldl (fun acc m => if m.source ∈ acc then acc else acc ++ [m.source]) []

/-- Modelled from the spec: `snapshot.GroupBySource` groups manifests by
equal source; every group keeps the input order of its manifests. -/
def groupBySource (ms : List Manifest) : List (List Manifest) :=
  (uniqueSources ms).map (fun s => ms.filter (fun m => m.source = s))

/-- Source of a snapshot group (`snapshotGroup[0].Source` in the Go code;
groups produced by `groupBySource` are never empty). -/
def groupSource : List Manifest → SourceInfo
  | [] => ⟨"", "", ""⟩
  | m :: _ => m.source

/-- `expireSnapshotsForSingleSource`: fetch the effective policy of the
group's source (an unavailable policy is returned as an error), run the
retention engine, and collect the ids of the manifests left without any
retention reason. -/
def expireSnapshotsForSingleSource (policies : SourceInfo → Option RetentionPolicy)
    (snapshots : List Manifest) : Except String (List String) :=
  match policies (groupSource snapshots) with
  | none => .error "unable to determine effective policy"
  | some pol =>
    let annotated := computeRetentionReasons pol snapshots
    .ok ((annotated.filter (fun s => s.retentionReasons.isEmpty)).map (fun s => s.id))

/-- `expireSnapshots`: group by source and concatenate each group's deletion
candidates; the first per-source error aborts the whole computation. -/
def expireSnapshots (policies : SourceInfo → Option RetentionPolicy)
    (snapshots : List Manifest) : Except String (List String) :=
  (groupBySource snapshots).foldlM
    (fun acc g => (expireSnapshotsForSingleSource policies g).map (fun td => acc ++ td)) []

/-- External collaborators and flag values of one `snapshot expire`
invocation: `--all`, positional paths, `ParseSourceInfo`,
`Manager.ListSnapshotManifests`, `Manager.LoadSnapshots` (`none` models a
load error), the policy manager, and the `--host`, `--user` and `--delete`
flags. -/
structure ExpireEnv where
  all : Bool
  paths : List String
  parseSource : String → Option SourceInfo
  listManifests : Option SourceInfo → List String
  loadSnapshots : List String → Option (List Manifest)
  policies : SourceInfo → Option RetentionPolicy
  host : String
  user : String
  deleteFlag : String

/-- The path loop of `getSnapshotNamesToExpire`: parse each positional path
(the first parse failure is fatal) and append the matching manifest names. -/
def collectPathSnapshots (env : ExpireEnv) : List String → Except String (List String)
  | [] => .ok []
  | p :: rest =>
    match env.parseSource p with
    | none => .error ("unable to parse " ++ p)
    | some src =>
      (collectPathSnapshots env rest).map (fun r => env.listManifests (some src) ++ r)

/-- `getSnapshotNamesToExpire`: `--all` or at least one path is required;
`--all` lists every manifest, otherwise the paths are parsed and listed. -/
def getSnapshotNamesToExpire (env : ExpireEnv) : Except String (List String) :=
  if ¬env.all ∧ env.paths.isEmpty then .error "Must specify paths to expire or --all"
  else if env.all then .ok (env.listManifests none)
  else collectPathSnapshots env env.paths

/-- `filterHostAndUser`: with both flags empty the input is returned as is;
otherwise a manifest is kept iff each non-empty flag matches its source. -/
def filterHostAndUser (host user : String) (snapshots : List Manifest) : List Manifest :=
  if host = "" ∧ user = "" then snapshots
  else snapshots.filter (fun s =>
    ¬(host ≠ "" ∧ host ≠ s.source.host) ∧ ¬(user ≠ "" ∧ user ≠ s.source.userName))

/-- Observable outcome of `runExpireCommand`: the returned error value and
the manifest ids on which a deletion was attempted. -/
structure ExpireResult where
  result : Except String Unit
  attempted : List String
deriving DecidableEq, Repr

/-- `runExpireCommand`: resolve the selection, load, filter by host/user,
compute the deletion candidates, and — only when `--delete=yes` — call
`rep.Manifests.Delete` on every candidate.  `deleteOutcome` stands for the
store's per-manifest deletion result; the Go code discards it, so it does not
influence the returned value. -/
def runExpireCommand (env : ExpireEnv) (deleteOutcome : String → Bool) : ExpireResult :=
  match getSnapshotNamesToExpire env with
  | .error e => ⟨.error e, []⟩
  | .ok names =>
    match env.loadSnapshots names with
    | none => ⟨.error "unable to load snapshots", []⟩
    | some snapshots =>
      match expireSnapshots env.policies (filterHostAndUser env.host env.user snapshots) with
      | .error e => ⟨.error e, []⟩
      | .ok toDelete =>
        if toDelete.isEmpty then ⟨.ok (), []⟩
        else if env.deleteFlag = "yes" then
          let _ := toDelete.map deleteOutcome
          ⟨.ok (), toDelete⟩
        else ⟨.ok (), []⟩

/-! ## Snapshot list command (`src/unnamed/part_000`) -/

/-- Outcome of resolving a manifest's root and nested entry
(`mgr.SnapshotRoot` / `getNestedEntry` / the `HasObjectID` check, all
external collaborators): success, a resolution error (printed as an
`<ERROR>` line), or an entry without an object id (skipped with a
warning). -/
inductive ResolveResult where
  | ok
  | errorEntry
  | noObjectID
deriving DecidableEq, Repr

/-- One line of the listing output, tagged with the manifest it renders. -/
inductive ListLine where
  | errorLine (m : Manifest)
  | entry (m : Manifest)
deriving DecidableEq, Repr

/-- Ascending-by-start-time ordering used by `snapshot.SortByTime(ms, false)`
(its implementation is absent from the visible sources; modelled from the
spec's "sorted ascending by start_time"). -/
def listOrder (a b : Manifest) : Prop := timeKey a.startTime ≤ timeKey b.startTime

instance : DecidableRel listOrder := fun a b => by
  unfold listOrder; infer_instance

/-- The window of manifests `outputManifestFromSingleSource` iterates: sorted
ascending by start time and truncated to the most recent `maxResults`. -/
def listWindow (maxResults : Nat) (ms : List Manifest) : List Manifest :=
  let sorted := List.insertionSort listOrder ms
  if maxResults < sorted.length then sorted.drop (sorted.length - maxResults) else sorted

/-- `outputManifestFromSingleSource`: for each manifest of the window, a
resolution failure prints an `<ERROR>` line and moves on; an entry without
object id is skipped; a manifest with a non-empty `IncompleteReason` is
skipped unless `--incomplete` is set; otherwise its listing line is
printed. -/
def outputManifestFromSingleSource (resolve : Manifest → ResolveResult)
    (includeIncomplete : Bool) (maxResults : Nat) (ms : List Manifest) : List ListLine :=
  (listWindow maxResults ms).filterMap (fun m =>
    match resolve m with
    | .errorEntry => some (.errorLine m)
    | .noObjectID => none
    | .ok =>
      if m.incompleteReason ≠ "" ∧ ¬includeIncomplete then none
      else some (.entry m))

/-- `outputManifestGroups`: for every source group, fetch the effective
policy; on failure log a warning and leave the group unannotated, otherwise
run the retention engine; either way the group is rendered and listed. -/
def outputManifestGroups (policies : SourceInfo → Option RetentionPolicy)
    (resolve : Manifest → ResolveResult) (includeIncomplete : Bool) (maxResults : Nat)
    (ms : List Manifest) : List (SourceInfo × List ListLine) :=
  (groupBySource ms).map (fun g =>
    (groupSource g,
      match policies (groupSource g) with
      | none => outputManifestFromSingleSource resolve includeIncomplete maxResults g
      | some pol =>
        outputManifestFromSingleSource resolve includeIncomplete maxResults
          (computeRetentionReasons pol g)))

/-- Pointwise rewrite of a manifest's `incompleteReason`, used to state that
the retention engine never reads that field. -/
def setIncomplete (r : String) (m : Manifest) : Manifest := { m with incompleteReason := r }

/-! ## Cache lemmas -/

lemma extractRange_nonneg {p : List Nat} {o l : Int} {v : List Nat}
    (h : extractRange p o l = some v) : 0 ≤ o := by
  unfold extractRange at h
  by_contra hneg
  rw [if_pos (not_le.mp hneg)] at h
  exact Option.noConfusion h

lemma cacheLookup_cachePut (l : List CacheEntry) (e : CacheEntry) :
    cacheLookup (cachePut l e) e.key = some e := by
  simp [cachePut, cacheLookup]

/-- A successful `getContentBlock` leaves (or installs) a cache entry under
the rewritten key whose payload slices to the returned bytes; the underlying
storage and the clock are untouched. -/
lemma getContentBlock_ok_cache {s : CacheState} {k b : String} {o l : Int} {v : List Nat}
    {s' : CacheState} (h : getContentBlock s k b o l = (.ok v, s')) :
    (∃ e, cacheLookup s'.cache (adjustCacheKey k) = some e ∧
      extractRange e.payload o l = some v) ∧ s'.now = s.now ∧ s'.underlying = s.underlying := by
  unfold getContentBlock at h
  split at h
  · simp at h
  · split at h
    · rename_i e hc
      split at h
      · rename_i w hev
        injection h with h1 h2
        injection h1 with h3
        subst h2 h3
        exact ⟨⟨e, hc, hev⟩, rfl, rfl⟩
      · simp at h
    · rename_i hc
      split at h
      · simp at h
      · rename_i p hb
        split at h
        · simp at h
        · rename_i w hev
          injection h with h1 h2
          injection h1 with h3
          subst h3
          refine ⟨⟨⟨adjustCacheKey k, p, s.now⟩, ?_, hev⟩, ?_, ?_⟩
          · rw [← h2]
            exact cacheLookup_cachePut s.cache ⟨adjustCacheKey k, p, s.now⟩
          · rw [← h2]
          · rw [← h2]

/-- C1.  For every cache key, block id, offset and length such that the
underlying range read succeeds, `get_range` returns exactly the same bytes,
whether it is served from the cache (any present entry under the rewritten
key holds the block's full payload — the spec's "modulo corruption" proviso)
or from the underlying storage. -/
theorem getRange_agrees_with_underlying (s : CacheState) (k b : String) (o l : Int)
    (v : List Nat)
    (hget : underlyingGet s b o l = some v)
    (hcoh : ∀ e, cacheLookup s.cache (adjustCacheKey k) = some e →
      lookupBlock s.underlying b = some e.payload) :
    (getContentBlock s k b o l).1 = .ok v := by
  obtain ⟨p, hp, hev⟩ : ∃ p, lookupBlock s.underlying b = some p ∧ extractRange p o l = some v := by
    unfold underlyingGet at hget
    cases hb : lookupBlock s.underlying b with
    | none => rw [hb] at hget; simp at hget
    | some p => rw [hb] at hget; exact ⟨p, rfl, hget⟩
  have ho : ¬ o < 0 := not_lt.mpr (extractRange_nonneg hev)
  unfold getContentBlock
  rw [if_neg ho]
  cases hc : cacheLookup s.cache (adjustCacheKey k) with
  | some e =>
    have hpe := hcoh e hc
    rw [hp] at hpe
    injection hpe with hpe
    dsimp only
    rw [← hpe, hev]
  | none =>
    dsimp only
    rw [hp]
    dsimp only
    rw [hev]

lemma extractRange_invalid {p : List Nat} {o l : Int} (ho : 0 ≤ o)
    (hbad : (0 ≤ l ∧ (p.length : Int) < o + l) ∨ (p.length : Int) < o) :
    extractRange p o l = none := by
  unfold extractRange
  rw [if_neg (not_lt.mpr ho)]
  rcases hbad with ⟨hl, hlen⟩ | hlen
  · rw [if_pos hl, if_neg (not_le.mpr hlen)]
  · by_cases hl : 0 ≤ l
    · rw [if_pos hl, if_neg (not_le.mpr (lt_of_lt_of_le hlen (le_add_of_nonneg_right hl)))]
    · rw [if_neg hl]
      by_cases he : l = -1
      · rw [if_pos he, if_neg (not_le.mpr hlen)]
      · rw [if_neg he]

/-- C6.  A cache key whose `get_range` succeeded keeps returning the same
bytes after the block is deleted from the underlying storage (the entry
persisted by the first call serves the repeat call); a key with no cache
entry for a block absent from the underlying storage yields `NotFound`. -/
theorem cached_read_survives_underlying_delete :
    (∀ (s : CacheState) (k b : String) (o l : Int) (v : List Nat) (s' : CacheState),
      getContentBlock s k b o l = (.ok v, s') →
      getContentBlock (deleteUnderlying s' b) k b o l = (.ok v, deleteUnderlying s' b)) ∧
    (∀ (s : CacheState) (k b : String) (o l : Int),
      0 ≤ o → cacheLookup s.cache (adjustCacheKey k) = none →
      lookupBlock s.underlying b = none →
      (getContentBlock s k b o l).1 = .error .notFound) := by
  constructor
  · intro s k b o l v s' h
    obtain ⟨⟨e, he, hev⟩, _, _⟩ := getContentBlock_ok_cache h
    have ho : ¬ o < 0 := not_lt.mpr (extractRange_nonneg hev)
    unfold getContentBlock
    rw [if_neg ho]
    rw [show (deleteUnderlying s' b).cache = s'.cache from rfl, he]
    dsimp only
    rw [hev]
  · intro s k b o l ho hc hb
    unfold getContentBlock
    rw [if_neg (not_lt.mpr ho), hc]
    dsimp only
    rw [hb]

/-- C7.  `get_range` surfaces `InvalidOffset` for a negative offset before
any storage is consulted; on a hit, for a range exceeding the cached
payload's length; and on a cold miss, for a range exceeding the materialized
block's length — the deferred bound check. -/
theorem invalid_offset_conditions :
    (∀ (s : CacheState) (k b : String) (o l : Int), o < 0 →
      (getContentBlock s k b o l).1 = .error .invalidOffset) ∧
    (∀ (s : CacheState) (k b : String) (o l : Int) (e : CacheEntry),
      0 ≤ o → cacheLookup s.cache (adjustCacheKey k) = some e →
      ((0 ≤ l ∧ (e.payload.length : Int) < o + l) ∨ (e.payload.length : Int) < o) →
      (getContentBlock s k b o l).1 = .error .invalidOffset) ∧
    (∀ (s : CacheState) (k b : String) (o l : Int) (p : List Nat),
      0 ≤ o → cacheLookup s.cache (adjustCacheKey k) = none →
      lookupBlock s.underlying b = some p →
      ((0 ≤ l ∧ (p.length : Int) < o + l) ∨ (p.length : Int) < o) →
      (getContentBlock s k b o l).1 = .error .invalidOffset) := by
  refine ⟨fun s k b o l ho => ?_, fun s k b o l e ho hc hbad => ?_,
    fun s k b o l p ho hc hb hbad => ?_⟩
  · unfold getContentBlock
    rw [if_pos ho]
  · unfold getContentBlock
    rw [if_neg (not_lt.mpr ho), hc]
    dsimp only
    rw [extractRange_invalid ho hbad]
  · unfold getContentBlock
    rw [if_neg (not_lt.mpr ho), hc]
    dsimp only
    rw [hb]
    dsimp only
    rw [extractRange_invalid ho hbad]

/-- C8.  For a cache key with no entry and a block absent from the
underlying storage, `get_range` returns `NotFound` and leaves the state
unchanged (no negative caching), so the repeated call returns `NotFound`
again. -/
theorem notfound_no_negative_caching (s : CacheState) (k b : String) (o l : Int)
    (ho : 0 ≤ o)
    (hc : cacheLookup s.cache (adjustCacheKey k) = none)
    (hb : lookupBlock s.underlying b = none) :
    getContentBlock s k b o l = (.error .notFound, s) ∧
    (getContentBlock (getContentBlock s k b o l).2 k b o l).1 = .error .notFound := by
  have h1 : getContentBlock s k b o l = (.error .notFound, s) := by
    unfold getContentBlock
    rw [if_neg (not_lt.mpr ho), hc]
    dsimp only
    rw [hb]
  refine ⟨h1, ?_⟩
  rw [h1]
  dsimp only
  rw [h1]

/-- C4 (amended).  A successful `get_range` only ever persists cache entries
under `adjustCacheKey k`; an even-length key is stored unchanged, and an
odd-length key has its first character moved to the end (so the odd-length
test keys beginning with the marker `x` are stored ending in `x`). -/
theorem rewritten_key_rule (s : CacheState) (k b : String) (o l : Int) (v : List Nat)
    (s' : CacheState) (h : getContentBlock s k b o l = (.ok v, s')) :
    (∀ e ∈ s'.cache, e ∈ s.cache ∨ e.key = adjustCacheKey k) ∧
    (k.data.length % 2 = 0 → adjustCacheKey k = k) ∧
    (k.data.length % 2 = 1 → ∀ c t, k.data = c :: t →
      (adjustCacheKey k).data.getLast? = some c) := by
  refine ⟨?_, fun heven => ?_, fun hodd c t hk => ?_⟩
  · unfold getContentBlock at h
    split at h
    · simp at h
    · split at h
      · split at h
        · injection h with h1 h2
          subst h2
          exact fun e he => .inl he
        · simp at h
      · split at h
        · simp at h
        · split at h
          · simp at h
          · injection h with h1 h2
            rw [← h2]
            intro e he
            rcases List.mem_cons.mp he with hnew | hold
            · exact .inr (by rw [hnew])
            · exact .inl (List.mem_of_mem_filter hold)
  · unfold adjustCacheKey
    rw [if_neg (by omega)]
  · unfold adjustCacheKey
    rw [if_pos hodd, hk]
    exact List.getLast?_concat _

/-- C4 (counterexample).  Requesting cache key `f0f0f5` (the test's
even-length key) persists the payload under the identifier `f0f0f5` itself:
no object with key `f0f0f5` + the marker `x` exists afterwards, refuting the
claim that the on-storage identifier is always the caller's key with a
trailing `x` appended. -/
theorem rewritten_key_counterexample :
    (getContentBlock ⟨[("block-1", [1,2,3,4,5,6,7,8,9,10])], [], 0⟩
        "f0f0f5" "block-1" 7 3).1 = .ok [8,9,10] ∧
    cacheLookup (getContentBlock ⟨[("block-1", [1,2,3,4,5,6,7,8,9,10])], [], 0⟩
        "f0f0f5" "block-1" 7 3).2.cache "f0f0f5" =
      some ⟨"f0f0f5", [1,2,3,4,5,6,7,8,9,10], 0⟩ ∧
    cacheLookup (getContentBlock ⟨[("block-1", [1,2,3,4,5,6,7,8,9,10])], [], 0⟩
        "f0f0f5" "block-1" 7 3).2.cache (specRewrittenKey "f0f0f5") = none := by
  refine ⟨by decide, by decide, by decide⟩

/-- C1 witness: a warm state serving from the cache and a cold state serving
from the underlying storage return the same bytes as the underlying range
read. -/
theorem getRange_agrees_witness :
    (getContentBlock ⟨[("b1", [1,2,3,4,5])], [⟨"kk", [1,2,3,4,5], 0⟩], 7⟩
        "kk" "b1" 1 3).1 = .ok [2,3,4] ∧
    (getContentBlock ⟨[("b1", [1,2,3,4,5])], [], 7⟩ "kk" "b1" 1 3).1 = .ok [2,3,4] := by
  constructor
  · refine getRange_agrees_with_underlying _ "kk" _ _ _ _ (by decide) ?_
    intro e he
    have h0 : cacheLookup (⟨[("b1", [1,2,3,4,5])], [⟨"kk", [1,2,3,4,5], 0⟩], 7⟩ :
        CacheState).cache (adjustCacheKey "kk") = some ⟨"kk", [1,2,3,4,5], 0⟩ := by decide
    rw [h0] at he
    injection he with he
    rw [← he]
    decide
  · refine getRange_agrees_with_underlying _ "kk" _ _ _ _ (by decide) ?_
    intro e he
    have h0 : cacheLookup (⟨[("b1", [1,2,3,4,5])], [], 7⟩ :
        CacheState).cache (adjustCacheKey "kk") = none := by decide
    rw [h0] at he
    exact Option.noConfusion he

/-- C6 witness: after a first successful read populated the cache and the
block was deleted from the underlying storage, the repeat call still
returns the bytes; an unpopulated key for a missing block yields
`NotFound`. -/
theorem cached_read_survives_witness :
    getContentBlock (deleteUnderlying ⟨[("b1", [1,2,3,4,5])], [⟨"kk", [1,2,3,4,5], 3⟩], 3⟩ "b1")
        "kk" "b1" 1 3 =
      (.ok [2,3,4],
        deleteUnderlying ⟨[("b1", [1,2,3,4,5])], [⟨"kk", [1,2,3,4,5], 3⟩], 3⟩ "b1") ∧
    (getContentBlock ⟨[], [], 0⟩ "kk" "bgone" 0 (-1)).1 = .error .notFound :=
  ⟨cached_read_survives_underlying_delete.1 ⟨[("b1", [1,2,3,4,5])], [], 3⟩ "kk" "b1" 1 3
      [2,3,4] ⟨[("b1", [1,2,3,4,5])], [⟨"kk", [1,2,3,4,5], 3⟩], 3⟩ (by decide),
    cached_read_survives_underlying_delete.2 ⟨[], [], 0⟩ "kk" "bgone" 0 (-1)
      (by decide) (by decide) (by decide)⟩

/-- C7 witness: the test's invalid ranges — a negative offset, a hit whose
offset exceeds the cached payload, and a cold miss whose deferred bound
check fails — all yield `InvalidOffset`. -/
theorem invalid_offset_witness :
    (getContentBlock ⟨[("block-1", [1,2,3,4,5,6,7,8,9,10])], [], 0⟩
        "xf0f0f6" "block-1" (-1) 5).1 = .error .invalidOffset ∧
    (getContentBlock ⟨[("block-1", [1,2,3,4,5,6,7,8,9,10])], [⟨"kk", [1,2,3,4,5], 0⟩], 0⟩
        "kk" "block-1" 9 0).1 = .error .invalidOffset ∧
    (getContentBlock ⟨[("block-1", [1,2,3,4,5,6,7,8,9,10])], [], 0⟩
        "xf0f0f6" "block-1" 11 10).1 = .error .invalidOffset :=
  ⟨invalid_offset_conditions.1 _ "xf0f0f6" "block-1" (-1) 5 (by decide),
    invalid_offset_conditions.2.1 _ "kk" "block-1" 9 0 ⟨"kk", [1,2,3,4,5], 0⟩
      (by decide) (by decide) (by decide),
    invalid_offset_conditions.2.2 _ "xf0f0f6" "block-1" 11 10 [1,2,3,4,5,6,7,8,9,10]
      (by decide) (by decide) (by decide) (by decide)⟩

/-- C8 witness: the test's `no-such-block` request returns `NotFound`,
leaves the state unchanged, and the repeated call returns `NotFound`
again. -/
theorem notfound_witness :
    getContentBlock ⟨[("block-1", [1,2,3,4,5,6,7,8,9,10])], [], 0⟩
        "xf0f0f3" "no-such-block" 0 (-1) =
      (.error .notFound, ⟨[("block-1", [1,2,3,4,5,6,7,8,9,10])], [], 0⟩) ∧
    (getContentBlock (getContentBlock ⟨[("block-1", [1,2,3,4,5,6,7,8,9,10])], [], 0⟩
        "xf0f0f3" "no-such-block" 0 (-1)).2 "xf0f0f3" "no-such-block" 0 (-1)).1 =
      .error .notFound :=
  notfound_no_negative_caching _ "xf0f0f3" "no-such-block" 0 (-1)
    (by decide) (by decide) (by decide)

/-- C4 (amended) witness: the test's odd-length key `xf0f0f1` is stored
ending in the marker, and the even-length key `f0f0f5` is stored
unchanged. -/
theorem rewritten_key_rule_witness :
    (adjustCacheKey "xf0f0f1").data.getLast? = some 'x' ∧
    adjustCacheKey "f0f0f5" = "f0f0f5" := by
  constructor
  · exact (rewritten_key_rule ⟨[("block-1", [1,2,3,4,5,6,7,8,9,10])], [], 0⟩
      "xf0f0f1" "block-1" 1 5 [2,3,4,5,6]
      ⟨[("block-1", [1,2,3,4,5,6,7,8,9,10])],
        [⟨"f0f0f1x", [1,2,3,4,5,6,7,8,9,10], 0⟩], 0⟩
      (by decide)).2.2 (by decide) 'x' "f0f0f1".data (by decide)
  · exact (rewritten_key_rule ⟨[("block-1", [1,2,3,4,5,6,7,8,9,10])], [], 0⟩
      "f0f0f5" "block-1" 7 3 [8,9,10]
      ⟨[("block-1", [1,2,3,4,5,6,7,8,9,10])],
        [⟨"f0f0f5", [1,2,3,4,5,6,7,8,9,10], 0⟩], 0⟩
      (by decide)).2.1 (by decide)

/-! ## Sweep lemmas -/

lemma totalSize_cons (e : CacheEntry) (l : List CacheEntry) :
    totalSize (e :: l) = entrySize e + totalSize l := by
  simp [totalSize]

lemma totalSize_filter_le (p : CacheEntry → Bool) (l : List CacheEntry) :
    totalSize (l.filter p) ≤ totalSize l := by
  induction l with
  | nil => exact Nat.le_refl _
  | cons e rest ih =>
    rw [List.filter_cons]
    split
    · rw [totalSize_cons, totalSize_cons]
      exact Nat.add_le_add_left ih _
    · rw [totalSize_cons]
      exact ih.trans (Nat.le_add_left _ _)

lemma sweepLoop_subset (cfg : SweepConfig) (now : Nat) :
    ∀ (l : List CacheEntry) (t : Nat), sweepLoop cfg now l t ⊆ l := by
  intro l
  induction l with
  | nil => intro t; simp [sweepLoop]
  | cons e rest ih =>
    intro t
    unfold sweepLoop
    split
    · exact (ih _).trans (List.subset_cons_self _ _)
    · exact fun x hx => hx

/-- After the eviction loop, either the remaining total is within the
ceiling or every remaining entry is younger than the minimal sweep age. -/
lemma sweepLoop_invariant (cfg : SweepConfig) (now : Nat) :
    ∀ (l : List CacheEntry), List.Sorted sweepOrder l →
      totalSize (sweepLoop cfg now l (totalSize l)) ≤ cfg.maxCacheSizeBytes ∨
        ∀ e ∈ sweepLoop cfg now l (totalSize l), now - e.modTime < cfg.minSweepAge := by
  have main : ∀ (l : List CacheEntry) (t : Nat), List.Sorted sweepOrder l →
      t = totalSize l →
      totalSize (sweepLoop cfg now l t) ≤ cfg.maxCacheSizeBytes ∨
        ∀ e ∈ sweepLoop cfg now l t, now - e.modTime < cfg.minSweepAge := by
    intro l
    induction l with
    | nil =>
      intro t _ ht
      left
      simp [sweepLoop, totalSize]
    | cons e rest ih =>
      intro t hsort ht
      unfold sweepLoop
      split
      · rename_i hcond
        refine ih _ hsort.of_cons ?_
        rw [ht, totalSize_cons]
        exact Nat.add_sub_cancel_left _ _
      · rename_i hcond
        rw [Classical.not_and_iff_or_not_not] at hcond
        rcases hcond with hsize | hage
        · left
          rw [← ht]
          exact Nat.le_of_not_lt hsize
        · right
          intro x hx
          have hagee : now - e.modTime < cfg.minSweepAge := Nat.lt_of_not_le hage
          rcases List.mem_cons.mp hx with rfl | hxr
          · exact hagee
          · have hmt : e.modTime ≤ x.modTime := List.rel_of_sorted_cons hsort x hxr
            exact Nat.lt_of_le_of_lt (Nat.sub_le_sub_left hmt now) hagee
  intro l hs
  exact main l (totalSize l) hs rfl

/-- Every entry the eviction loop drops has age at least the minimal sweep
age. -/
lemma sweepLoop_dropped_age (cfg : SweepConfig) (now : Nat) :
    ∀ (l : List CacheEntry) (t : Nat), List.Sorted sweepOrder l →
      ∀ x ∈ l, x ∉ sweepLoop cfg now l t → cfg.minSweepAge ≤ now - x.modTime := by
  intro l
  induction l with
  | nil => intro t _ x hx; exact absurd hx (List.not_mem_nil x)
  | cons e rest ih =>
    intro t hsort x hx hnx
    rw [show sweepLoop cfg now (e :: rest) t =
      (if cfg.maxCacheSizeBytes < t ∧ cfg.minSweepAge ≤ now - e.modTime then
        sweepLoop cfg now rest (t - entrySize e) else e :: rest) from rfl] at hnx
    split at hnx
    · rename_i hcond
      rcases List.mem_cons.mp hx with rfl | hxr
      · exact hcond.2
      · exact ih _ hsort.of_cons x hxr hnx
    · exact absurd hx hnx

/-- Every entry the eviction loop drops is no younger than any entry that
remains: deletion proceeds oldest first. -/
lemma sweepLoop_dropped_before_kept (cfg : SweepConfig) (now : Nat) :
    ∀ (l : List CacheEntry) (t : Nat), List.Sorted sweepOrder l →
      ∀ x ∈ l, x ∉ sweepLoop cfg now l t →
        ∀ r ∈ sweepLoop cfg now l t, x.modTime ≤ r.modTime := by
  intro l
  induction l with
  | nil => intro t _ x hx; exact absurd hx (List.not_mem_nil x)
  | cons e rest ih =>
    intro t hsort x hx hnx r hr
    rw [show sweepLoop cfg now (e :: rest) t =
      (if cfg.maxCacheSizeBytes < t ∧ cfg.minSweepAge ≤ now - e.modTime then
        sweepLoop cfg now rest (t - entrySize e) else e :: rest) from rfl] at hnx hr
    split at hnx
    · rename_i hcond
      rw [if_pos hcond] at hr
      rcases List.mem_cons.mp hx with rfl | hxr
      · exact List.rel_of_sorted_cons hsort r (sweepLoop_subset cfg now rest _ hr)
      · exact ih _ hsort.of_cons x hxr hnx r hr
    · exact absurd hx hnx

/-- C3.  After a sweep pass, for any selection of the remaining cache
objects (in particular the marker-tagged ones): either their total size is
within `max_cache_size_bytes` or every one of them is younger than
`min_sweep_age`; moreover every evicted entry was at least `min_sweep_age`
old and no younger than any surviving entry (eviction is oldest-first). -/
theorem sweepPass_size_and_age (cfg : SweepConfig) (s : CacheState) (p : CacheEntry → Bool) :
    (totalSize (((sweepPass cfg s).cache).filter p) ≤ cfg.maxCacheSizeBytes ∨
      ∀ e ∈ ((sweepPass cfg s).cache).filter p, s.now - e.modTime < cfg.minSweepAge) ∧
    (∀ e ∈ s.cache, e ∉ (sweepPass cfg s).cache → cfg.minSweepAge ≤ s.now - e.modTime) ∧
    (∀ e ∈ s.cache, e ∉ (sweepPass cfg s).cache →
      ∀ r ∈ (sweepPass cfg s).cache, e.modTime ≤ r.modTime) := by
  have hsorted : List.Sorted sweepOrder (List.insertionSort sweepOrder s.cache) :=
    List.sorted_insertionSort sweepOrder s.cache
  have hmem : ∀ x, x ∈ s.cache ↔ x ∈ List.insertionSort sweepOrder s.cache :=
    fun x => (List.perm_insertionSort sweepOrder s.cache).mem_iff.symm
  refine ⟨?_, ?_, ?_⟩
  · rcases sweepLoop_invariant cfg s.now _ hsorted with hsize | hage
    · left
      exact (totalSize_filter_le p _).trans hsize
    · right
      intro e he
      exact hage e (List.mem_of_mem_filter he)
  · intro e he hne
    exact sweepLoop_dropped_age cfg s.now _ _ hsorted e ((hmem e).mp he) hne
  · intro e he hne r hr
    exact sweepLoop_dropped_before_kept cfg s.now _ _ hsorted e ((hmem e).mp he) hne r hr

/-- C3 witness: the scaled-down shape of `TestCacheExpiration` — four equal
entries exceeding the ceiling — evicts exactly the two oldest, which are
older than the minimal sweep age, and the surviving filtered total is within
the ceiling. -/
theorem sweepPass_witness :
    (sweepPass ⟨10, 1⟩ ⟨[], [⟨"a", [0,0,0,0], 1⟩, ⟨"b", [0,0,0,0], 2⟩,
        ⟨"c", [0,0,0,0], 3⟩, ⟨"d", [0,0,0,0], 4⟩], 5⟩).cache =
      [⟨"c", [0,0,0,0], 3⟩, ⟨"d", [0,0,0,0], 4⟩] ∧
    (1 : Nat) ≤ 5 - (1 : Nat) ∧
    ((2 : Nat) ≤ 3 ∧ (2 : Nat) ≤ 4) := by
  have hb := sweepPass_size_and_age ⟨10, 1⟩ ⟨[], [⟨"a", [0,0,0,0], 1⟩, ⟨"b", [0,0,0,0], 2⟩,
    ⟨"c", [0,0,0,0], 3⟩, ⟨"d", [0,0,0,0], 4⟩], 5⟩ (fun _ => true)
  refine ⟨by decide, ?_, ?_, ?_⟩
  · exact hb.2.1 ⟨"a", [0,0,0,0], 1⟩ (by decide) (by decide)
  · exact hb.2.2 ⟨"b", [0,0,0,0], 2⟩ (by decide) (by decide) ⟨"c", [0,0,0,0], 3⟩ (by decide)
  · exact hb.2.2 ⟨"b", [0,0,0,0], 2⟩ (by decide) (by decide) ⟨"d", [0,0,0,0], 4⟩ (by decide)

/-! ## Retention and CLI lemmas -/

lemma annotateAux_map_id (pol : RetentionPolicy) :
    ∀ (idx : Nat) (sA sMo sW sD sH : List String) (l : List Manifest),
      (annotateAux pol idx sA sMo sW sD sH l).map Manifest.id = l.map Manifest.id := by
  intro idx sA sMo sW sD sH l
  induction l generalizing idx sA sMo sW sD sH with
  | nil => rfl
  | cons m rest ih => simp [annotateAux, ih]

lemma computeRetentionReasons_map_id (pol : RetentionPolicy) (ms : List Manifest) :
    List.Perm ((computeRetentionReasons pol ms).map Manifest.id) (ms.map Manifest.id) := by
  unfold computeRetentionReasons
  rw [annotateAux_map_id]
  exact (List.perm_insertionSort retentionOrder ms).map Manifest.id

/-- C2.  For a source group whose policy lookup succeeds, the expire driver
returns a deletion-candidate list containing exactly the ids of the
manifests whose computed retention reasons are empty. -/
theorem expire_candidates_iff_no_reasons (policies : SourceInfo → Option RetentionPolicy)
    (pol : RetentionPolicy) (m0 : Manifest) (rest : List Manifest)
    (hpol : policies (groupSource (m0 :: rest)) = some pol)
    (hnd : ((m0 :: rest).map Manifest.id).Nodup) :
    ∃ td, expireSnapshotsForSingleSource policies (m0 :: rest) = .ok td ∧
      ∀ m ∈ computeRetentionReasons pol (m0 :: rest),
        (m.id ∈ td ↔ m.retentionReasons = []) := by
  have hndA : ((computeRetentionReasons pol (m0 :: rest)).map Manifest.id).Nodup :=
    ((computeRetentionReasons_map_id pol (m0 :: rest)).nodup_iff).mpr hnd
  refine ⟨((computeRetentionReasons pol (m0 :: rest)).filter
      (fun s => s.retentionReasons.isEmpty)).map (fun s => s.id), ?_, ?_⟩
  · unfold expireSnapshotsForSingleSource
    rw [hpol]
  · intro m hm
    constructor
    · intro hid
      obtain ⟨m2, hm2f, hm2id⟩ := List.mem_map.mp hid
      have hm2 := List.mem_of_mem_filter hm2f
      have hempty := (List.mem_filter.mp hm2f).2
      have heq : m2 = m := List.inj_on_of_nodup_map hndA hm2 hm hm2id
      rw [← heq]
      exact List.isEmpty_iff.mp hempty
    · intro hempty
      refine List.mem_map_of_mem _ (List.mem_filter.mpr ⟨hm, ?_⟩)
      rw [hempty]
      rfl

/-- C2 witness: a keep-latest-1 policy over two snapshots of one source
keeps the newer and lists exactly the elder's id. -/
theorem expire_candidates_witness :
    ∃ td, expireSnapshotsForSingleSource
        (fun _ => some ⟨some 1, none, none, none, none, none⟩)
        [⟨"a", ⟨"h", "u", "/p"⟩, ⟨2024, 1, 2, 0, 0⟩, "", ⟨0⟩, []⟩,
         ⟨"b", ⟨"h", "u", "/p"⟩, ⟨2024, 1, 1, 0, 0⟩, "", ⟨0⟩, []⟩] = .ok td ∧
      ∀ m ∈ computeRetentionReasons ⟨some 1, none, none, none, none, none⟩
          [⟨"a", ⟨"h", "u", "/p"⟩, ⟨2024, 1, 2, 0, 0⟩, "", ⟨0⟩, []⟩,
           ⟨"b", ⟨"h", "u", "/p"⟩, ⟨2024, 1, 1, 0, 0⟩, "", ⟨0⟩, []⟩],
        (m.id ∈ td ↔ m.retentionReasons = []) :=
  expire_candidates_iff_no_reasons (fun _ => some ⟨some 1, none, none, none, none, none⟩)
    ⟨some 1, none, none, none, none, none⟩
    ⟨"a", ⟨"h", "u", "/p"⟩, ⟨2024, 1, 2, 0, 0⟩, "", ⟨0⟩, []⟩
    [⟨"b", ⟨"h", "u", "/p"⟩, ⟨2024, 1, 1, 0, 0⟩, "", ⟨0⟩, []⟩]
    (by decide) (by decide)

/-- C9.  With `--delete=yes` and a non-empty candidate list, the expire
command attempts deletion of every candidate and returns success no matter
what the individual deletions return: the per-manifest outcome is
discarded. -/
theorem delete_yes_ignores_outcomes (env : ExpireEnv) (outcome : String → Bool)
    (names : List String) (snaps : List Manifest) (toDelete : List String)
    (h1 : getSnapshotNamesToExpire env = .ok names)
    (h2 : env.loadSnapshots names = some snaps)
    (h3 : expireSnapshots env.policies (filterHostAndUser env.host env.user snaps) = .ok toDelete)
    (h4 : toDelete ≠ [])
    (h5 : env.deleteFlag = "yes") :
    runExpireCommand env outcome = ⟨.ok (), toDelete⟩ := by
  unfold runExpireCommand
  rw [h1]
  dsimp only
  rw [h2]
  dsimp only
  rw [h3]
  dsimp only
  rw [if_neg (fun hh => h4 (List.isEmpty_iff.mp hh)), if_pos h5]

/-- C9 witness: a concrete run whose per-manifest deletion outcome is
constantly a failure still returns success and attempts every candidate. -/
theorem delete_yes_witness :
    runExpireCommand
      ⟨true, [], fun _ => none, fun _ => ["a", "b"],
        fun _ => some [⟨"a", ⟨"h", "u", "/p"⟩, ⟨2024, 1, 2, 0, 0⟩, "", ⟨0⟩, []⟩,
          ⟨"b", ⟨"h", "u", "/p"⟩, ⟨2024, 1, 1, 0, 0⟩, "", ⟨0⟩, []⟩],
        fun _ => some ⟨some 1, none, none, none, none, none⟩, "", "", "yes"⟩
      (fun _ => false) = ⟨.ok (), ["b"]⟩ :=
  delete_yes_ignores_outcomes _ (fun _ => false) ["a", "b"]
    [⟨"a", ⟨"h", "u", "/p"⟩, ⟨2024, 1, 2, 0, 0⟩, "", ⟨0⟩, []⟩,
     ⟨"b", ⟨"h", "u", "/p"⟩, ⟨2024, 1, 1, 0, 0⟩, "", ⟨0⟩, []⟩] ["b"]
    (by decide) (by decide) (by decide) (by decide) (by decide)

/-- C5 (counterexample).  A policy lookup failure makes the expire
invocation return an error — it is fatal, contrary to the claim that the
driver merely warns and continues; no deletion is attempted. -/
theorem policy_error_fatal_counterexample :
    (runExpireCommand
      ⟨true, [], fun _ => none, fun _ => ["m1"],
        fun _ => some [⟨"m1", ⟨"h1", "u1", "/p"⟩, ⟨2024, 1, 1, 0, 0⟩, "", ⟨0⟩, []⟩],
        fun _ => none, "", "", "yes"⟩ (fun _ => true)).result =
      .error "unable to determine effective policy" ∧
    (runExpireCommand
      ⟨true, [], fun _ => none, fun _ => ["m1"],
        fun _ => some [⟨"m1", ⟨"h1", "u1", "/p"⟩, ⟨2024, 1, 1, 0, 0⟩, "", ⟨0⟩, []⟩],
        fun _ => none, "", "", "yes"⟩ (fun _ => true)).attempted = [] :=
  ⟨by decide, by decide⟩

/-- C5 (amended).  A policy lookup failure is handled differently by the two
drivers: the snapshot list command logs a warning, skips annotation and
still lists the source's snapshots; the expire command returns the error,
aborting the invocation before any deletion is attempted. -/
theorem policy_error_list_warns_expire_fatal :
    (∀ (policies : SourceInfo → Option RetentionPolicy) (resolve : Manifest → ResolveResult)
      (incl : Bool) (maxR : Nat) (ms : List Manifest) (g : List Manifest),
      g ∈ groupBySource ms → policies (groupSource g) = none →
      (groupSource g, outputManifestFromSingleSource resolve incl maxR g) ∈
        outputManifestGroups policies resolve incl maxR ms) ∧
    (∀ (env : ExpireEnv) (outcome : String → Bool) (names : List String)
      (snaps : List Manifest) (e : String),
      getSnapshotNamesToExpire env = .ok names →
      env.loadSnapshots names = some snaps →
      expireSnapshots env.policies (filterHostAndUser env.host env.user snaps) = .error e →
      runExpireCommand env outcome = ⟨.error e, []⟩) := by
  constructor
  · intro policies resolve incl maxR ms g hg hpol
    refine List.mem_map.mpr ⟨g, hg, ?_⟩
    dsimp only
    rw [hpol]
  · intro env outcome names snaps e h1 h2 h3
    unfold runExpireCommand
    rw [h1]
    dsimp only
    rw [h2]
    dsimp only
    rw [h3]

/-- C5 (amended) witness: with every policy lookup failing, the single
source is still listed by the list command, while the expire command
returns the error and attempts nothing. -/
theorem policy_error_witness :
    (groupSource [⟨"m1", ⟨"h1", "u1", "/p"⟩, ⟨2024, 1, 1, 0, 0⟩, "", ⟨0⟩, []⟩],
      outputManifestFromSingleSource (fun _ => .ok) false 1000
        [⟨"m1", ⟨"h1", "u1", "/p"⟩, ⟨2024, 1, 1, 0, 0⟩, "", ⟨0⟩, []⟩]) ∈
      outputManifestGroups (fun _ => none) (fun _ => .ok) false 1000
        [⟨"m1", ⟨"h1", "u1", "/p"⟩, ⟨2024, 1, 1, 0, 0⟩, "", ⟨0⟩, []⟩] ∧
    runExpireCommand
      ⟨true, [], fun _ => none, fun _ => ["m1"],
        fun _ => some [⟨"m1", ⟨"h1", "u1", "/p"⟩, ⟨2024, 1, 1, 0, 0⟩, "", ⟨0⟩, []⟩],
        fun _ => none, "", "", "yes"⟩ (fun _ => false) =
      ⟨.error "unable to determine effective policy", []⟩ :=
  ⟨policy_error_list_warns_expire_fatal.1 (fun _ => none) (fun _ => .ok) false 1000
      [⟨"m1", ⟨"h1", "u1", "/p"⟩, ⟨2024, 1, 1, 0, 0⟩, "", ⟨0⟩, []⟩]
      [⟨"m1", ⟨"h1", "u1", "/p"⟩, ⟨2024, 1, 1, 0, 0⟩, "", ⟨0⟩, []⟩]
      (by decide) (by decide),
    policy_error_list_warns_expire_fatal.2 _ (fun _ => false) ["m1"]
      [⟨"m1", ⟨"h1", "u1", "/p"⟩, ⟨2024, 1, 1, 0, 0⟩, "", ⟨0⟩, []⟩]
      "unable to determine effective policy" (by decide) (by decide) (by decide)⟩

/-! ## Listing lemmas (C10) -/

lemma orderedInsert_map_setIncomplete (r : String) (a : Manifest) :
    ∀ l, List.orderedInsert retentionOrder (setIncomplete r a) (l.map (setIncomplete r)) =
      (List.orderedInsert retentionOrder a l).map (setIncomplete r) := by
  intro l
  induction l with
  | nil => rfl
  | cons b bs ih =>
    by_cases h : retentionOrder a b
    · have h2 : retentionOrder (setIncomplete r a) (setIncomplete r b) := h
      simp only [List.map_cons, List.orderedInsert, if_pos h, if_pos h2]
    · have h2 : ¬ retentionOrder (setIncomplete r a) (setIncomplete r b) := h
      simp only [List.map_cons, List.orderedInsert, if_neg h, if_neg h2, ih]

lemma insertionSort_map_setIncomplete (r : String) :
    ∀ l, List.insertionSort retentionOrder (l.map (setIncomplete r)) =
      (List.insertionSort retentionOrder l).map (setIncomplete r) := by
  intro l
  induction l with
  | nil => rfl
  | cons a l ih =>
    simp only [List.map_cons, List.insertionSort, ih, orderedInsert_map_setIncomplete]

lemma annotateAux_map_setIncomplete (pol : RetentionPolicy) (r : String) :
    ∀ (idx : Nat) (sA sMo sW sD sH : List String) (l : List Manifest),
      annotateAux pol idx sA sMo sW sD sH (l.map (setIncomplete r)) =
        (annotateAux pol idx sA sMo sW sD sH l).map (setIncomplete r) := by
  intro idx sA sMo sW sD sH l
  induction l generalizing idx sA sMo sW sD sH with
  | nil => rfl
  | cons m rest ih =>
    simp only [List.map_cons, annotateAux, ih, setIncomplete]

/-- C10.  A manifest appears as a listing line iff it is in the listing
window, resolves to an entry with an object id, and is either complete or
`--incomplete` is set; and the retention engine assigns reasons without ever
reading `incompleteReason`, so incomplete manifests are annotated exactly
like complete ones. -/
theorem listing_omits_incomplete :
    (∀ (resolve : Manifest → ResolveResult) (incl : Bool) (maxR : Nat)
      (ms : List Manifest) (m : Manifest),
      ListLine.entry m ∈ outputManifestFromSingleSource resolve incl maxR ms ↔
        (m ∈ listWindow maxR ms ∧ resolve m = .ok ∧
          (m.incompleteReason = "" ∨ incl = true))) ∧
    (∀ (pol : RetentionPolicy) (r : String) (ms : List Manifest),
      computeRetentionReasons pol (ms.map (setIncomplete r)) =
        (computeRetentionReasons pol ms).map (setIncomplete r)) := by
  constructor
  · intro resolve incl maxR ms m
    unfold outputManifestFromSingleSource
    rw [List.mem_filterMap]
    constructor
    · rintro ⟨a, ha, hfa⟩
      cases hr : resolve a with
      | errorEntry => rw [hr] at hfa; simp at hfa
      | noObjectID => rw [hr] at hfa; simp at hfa
      | ok =>
        rw [hr] at hfa
        dsimp only at hfa
        split at hfa
        · exact absurd hfa (by simp)
        · rename_i hcond
          injection hfa with hfa
          injection hfa with hfa
          subst hfa
          refine ⟨ha, hr, ?_⟩
          by_cases hic : a.incompleteReason = ""
          · exact .inl hic
          · right
            by_contra hincl
            exact hcond ⟨hic, fun hi => hincl hi⟩
    · rintro ⟨hw, hr, hcond⟩
      refine ⟨m, hw, ?_⟩
      rw [hr]
      dsimp only
      rw [if_neg ?_]
      rintro ⟨hne, hnincl⟩
      rcases hcond with hc | hc
      · exact hne hc
      · exact hnincl hc
  · intro pol r ms
    unfold computeRetentionReasons
    rw [insertionSort_map_setIncomplete, annotateAux_map_setIncomplete]

/-- C10 witness: an incomplete manifest is omitted without `--incomplete`,
listed with it, and annotated identically to its completion-stripped
twin. -/
theorem listing_omits_incomplete_witness :
    ListLine.entry ⟨"i1", ⟨"h", "u", "/p"⟩, ⟨2024, 1, 1, 0, 0⟩, "checkpoint", ⟨0⟩, []⟩ ∉
      outputManifestFromSingleSource (fun _ => .ok) false 1000
        [⟨"i1", ⟨"h", "u", "/p"⟩, ⟨2024, 1, 1, 0, 0⟩, "checkpoint", ⟨0⟩, []⟩] ∧
    ListLine.entry ⟨"i1", ⟨"h", "u", "/p"⟩, ⟨2024, 1, 1, 0, 0⟩, "checkpoint", ⟨0⟩, []⟩ ∈
      outputManifestFromSingleSource (fun _ => .ok) true 1000
        [⟨"i1", ⟨"h", "u", "/p"⟩, ⟨2024, 1, 1, 0, 0⟩, "checkpoint", ⟨0⟩, []⟩] ∧
    computeRetentionReasons ⟨some 1, none, none, none, none, none⟩
        ([⟨"i1", ⟨"h", "u", "/p"⟩, ⟨2024, 1, 1, 0, 0⟩, "checkpoint", ⟨0⟩, []⟩].map
          (setIncomplete "other")) =
      (computeRetentionReasons ⟨some 1, none, none, none, none, none⟩
        [⟨"i1", ⟨"h", "u", "/p"⟩, ⟨2024, 1, 1, 0, 0⟩, "checkpoint", ⟨0⟩, []⟩]).map
        (setIncomplete "other") := by
  refine ⟨?_, ?_, listing_omits_incomplete.2 ⟨some 1, none, none, none, none, none⟩ "other" _⟩
  · intro hmem
    have hh := (listing_omits_incomplete.1 (fun _ => .ok) false 1000
      [⟨"i1", ⟨"h", "u", "/p"⟩, ⟨2024, 1, 1, 0, 0⟩, "checkpoint", ⟨0⟩, []⟩]
      ⟨"i1", ⟨"h", "u", "/p"⟩, ⟨2024, 1, 1, 0, 0⟩, "checkpoint", ⟨0⟩, []⟩).mp hmem
    exact absurd hh (by decide)
  · exact (listing_omits_incomplete.1 (fun _ => .ok) true 1000
      [⟨"i1", ⟨"h", "u", "/p"⟩, ⟨2024, 1, 1, 0, 0⟩, "checkpoint", ⟨0⟩, []⟩]
      ⟨"i1", ⟨"h", "u", "/p"⟩, ⟨2024, 1, 1, 0, 0⟩, "checkpoint", ⟨0⟩, []⟩).mpr
      ⟨by decide, rfl, Or.inr rfl⟩

end Kopia
